import Mathlib

/-!
Verification of the OpenImageIO ImageCache specification against the code.

The repository ships only the public header `src/include/OpenImageIO/imagecache.h`
for this subsystem; the cache engine itself (tile cache, eviction, dedup,
pixel gather) is documented in the header and in the specification but its
implementation file is not part of the source tree given here.  Wherever the
engine's behavior is needed, the definitions below are modelled from the
specification (and from the header's doc comments); each such definition says
so in its doc comment.  The deprecated `get_imagespec` / `imagespec` overloads
are defined inline in the header, so those are translated directly from the
source.

Machine integers of the C++ code are modelled as `Nat` / `Int`; byte sizes and
reference counts are `Nat`.
-/

namespace OIIOCache

/-- Modelled from the spec (§3 "TileKey", header `get_tile`): the identity of a
cached tile: (FileID, subimage, miplevel, tile-aligned origin, channel range).
All fields participate in equality. -/
structure TileKey where
  fileID : Nat
  subimage : Nat
  miplevel : Nat
  x : Int
  y : Int
  z : Int
  chbegin : Nat
  chend : Nat
deriving DecidableEq, Repr

/-- Modelled from the spec (§3 "TileRecord"): a resident tile: key, byte size,
reference count, clock "used" bit, and whether the tile has been invalidated
(`broken`).  The pixel payload is not needed for the cache-engine claims. -/
structure TileRecord where
  key : TileKey
  bytes : Nat
  refcount : Nat
  used : Bool
  broken : Bool
deriving DecidableEq, Repr

/-- Modelled from the spec (§3 "FileRecord"): the per-file record, reduced to
the fields the invalidation claims need: the FileID and the modification time
recorded at first open. -/
structure FileRec where
  fid : Nat
  mtime : Int
deriving DecidableEq, Repr

/-- Modelled from the spec (§2, §4.B/4.C): the shared state of the cache
engine: the tile list in clock order, the file records, and the memory budget
(`max_memory_MB`, in bytes here). -/
structure CacheState where
  tiles : List TileRecord
  files : List FileRec
  budget : Nat
deriving DecidableEq, Repr

/-- Total bytes of all resident tiles. -/
def residentBytes (ts : List TileRecord) : Nat :=
  (ts.map TileRecord.bytes).sum

/-- Clock measure used to bound the eviction scan: tiles plus set used bits.
Every productive clock pass strictly decreases it. -/
def clockMeasure (ts : List TileRecord) : Nat :=
  ts.length + ts.countP (fun t => t.used)

/-- Modelled from the spec (§4.C eviction): one pass of the second-chance
clock scan.  `total` is the current resident byte count of the whole cache.
Scanning stops as soon as the budget is met; a tile with its used bit set
clears the bit and survives; a tile with cleared bit and refcount 0 is
evicted; other tiles survive.  Returns the surviving tiles, the new byte
total, and whether the pass made progress (cleared a bit or evicted). -/
def clockPass (budget : Nat) : List TileRecord → Nat → List TileRecord × Nat × Bool
  | [], total => ([], total, false)
  | t :: rest, total =>
    if total ≤ budget then (t :: rest, total, false)
    else if t.used then
      let r := clockPass budget rest total
      ({ t with used := false } :: r.1, r.2.1, true)
    else if t.refcount = 0 then
      let r := clockPass budget rest (total - t.bytes)
      (r.1, r.2.1, true)
    else
      let r := clockPass budget rest total
      (t :: r.1, r.2.1, r.2.2)

/-- Modelled from the spec (§4.C eviction): repeat clock passes until the
budget is met or a full pass finds no candidate.  `fuel` bounds the number of
passes; callers supply at least `clockMeasure ts` so the loop always reaches
one of the two spec-mandated stopping conditions. -/
def evictLoop (budget : Nat) : Nat → List TileRecord → Nat → List TileRecord × Nat
  | 0, ts, total => (ts, total)
  | fuel + 1, ts, total =>
    if total ≤ budget then (ts, total)
    else
      let r := clockPass budget ts total
      if r.2.2 then evictLoop budget fuel r.1 r.2.1 else (r.1, r.2.1)

/-- Update the first element satisfying `p` with `f`, leaving the rest. -/
def updateFirst (p : α → Bool) (f : α → α) : List α → List α
  | [] => []
  | x :: xs => if p x then f x :: xs else x :: updateFirst p f xs

/-- Atomically take a reference on a tile: increment the refcount and set the
clock "used" bit. -/
def bump (t : TileRecord) : TileRecord :=
  { t with refcount := t.refcount + 1, used := true }

/-- Modelled from the spec (§4.B `find`): non-blocking lookup; on a hit the
refcount is atomically incremented and the used bit set, and the (updated)
record is handed back as the TileRef.  Broken (invalidated) tiles never hit
("no new lookups succeed" after invalidation). -/
def findTile (k : TileKey) (s : CacheState) : Option TileRecord × CacheState :=
  match s.tiles.find? (fun t => t.key = k ∧ ¬t.broken) with
  | none => (none, s)
  | some t =>
      (some (bump t),
       { s with tiles := updateFirst (fun t => t.key = k ∧ ¬t.broken) bump s.tiles })

/-- Modelled from the spec (§4.B `insert`): if the key already exists the new
record is discarded and the existing ref is returned (its refcount bumped);
otherwise the new tile is appended with refcount 1 (the returned ref) and the
used bit set, and the eviction scan runs if the byte total now exceeds the
budget. -/
def insertTile (k : TileKey) (b : Nat) (s : CacheState) : CacheState :=
  if s.tiles.any (fun t => t.key = k) then
    { s with tiles := updateFirst (fun t => t.key = k) bump s.tiles }
  else
    let ts := s.tiles ++ [⟨k, b, 1, true, false⟩]
    { s with tiles := (evictLoop s.budget (clockMeasure ts) ts (residentBytes ts)).1 }

/-- Modelled from the spec (§4.B `release`): decrement the refcount of the
tile; once at zero it becomes eligible for eviction but is not destroyed
until chosen — except that an invalidated (broken) tile's storage is
reclaimed as the last ref drops. -/
def releaseList (k : TileKey) : List TileRecord → List TileRecord
  | [] => []
  | t :: ts =>
    if t.key = k then
      if t.broken ∧ t.refcount ≤ 1 then ts
      else { t with refcount := t.refcount - 1 } :: ts
    else t :: releaseList k ts

/-- Modelled from the spec (§4.B `invalidate(FileID)`): mark all tiles of the
file broken and remove them from eviction candidacy; storage of tiles with no
outstanding refs is reclaimed immediately, the rest as the last ref drops. -/
def invalidateList (fid : Nat) : List TileRecord → List TileRecord
  | [] => []
  | t :: ts =>
    if t.key.fileID = fid then
      if t.refcount = 0 then invalidateList fid ts
      else { t with broken := true } :: invalidateList fid ts
    else t :: invalidateList fid ts

/-- Look up a file record by FileID. -/
def lookupFile (fid : Nat) (s : CacheState) : Option FileRec :=
  s.files.find? (fun f => f.fid = fid)

/-- Modelled from the spec (§4.J `invalidate(file, force)` and header lines
1115–1118): remove the file's record, its open handle, and all its cached
tiles, so later queries re-open and re-read — but when `force` is false the
invalidation is skipped if the file's current modification time (`cur`,
the result of the stat call) equals the one recorded at first open. -/
def invalidateFile (fid : Nat) (force : Bool) (cur : Int) (s : CacheState) :
    CacheState :=
  match lookupFile fid s with
  | none => s
  | some fr =>
    if force ∨ fr.mtime ≠ cur then
      { s with tiles := invalidateList fid s.tiles,
               files := s.files.filter (fun f => f.fid ≠ fid) }
    else s

/-- The operations a client can drive the shared cache state with. -/
inductive Op where
  | findOp (k : TileKey)
  | insertOp (k : TileKey) (bytes : Nat)
  | releaseOp (k : TileKey)
  | invalidateOp (fid : Nat) (force : Bool) (cur : Int)
deriving DecidableEq, Repr

/-- One step of the cache engine. -/
def step (op : Op) (s : CacheState) : CacheState :=
  match op with
  | .findOp k => (findTile k s).2
  | .insertOp k b => insertTile k b s
  | .releaseOp k => { s with tiles := releaseList k s.tiles }
  | .invalidateOp fid force cur => invalidateFile fid force cur s

/-- Run a sequence of operations from a state. -/
def runOps (s : CacheState) (ops : List Op) : CacheState :=
  ops.foldl (fun s op => step op s) s

/-! Helper lemmas about the pieces of the tile cache. -/

theorem updateFirst_bump_survive (p : TileRecord → Bool) (ts : List TileRecord)
    (t : TileRecord) (ht : t ∈ ts) :
    ∃ t' ∈ updateFirst p bump ts,
      t'.key = t.key ∧ t.refcount ≤ t'.refcount ∧ t'.bytes = t.bytes := by
  induction ts with
  | nil => cases ht
  | cons x xs ih =>
    simp only [updateFirst]
    rcases List.mem_cons.mp ht with rfl | hmem
    · cases hpx : p t
      · exact ⟨t, by simp [hpx], rfl, le_refl _, rfl⟩
      · exact ⟨bump t, by simp [hpx], rfl, by simp [bump], rfl⟩
    · cases hpx : p x
      · rcases ih hmem with ⟨t', ht', hk, hr, hb⟩
        exact ⟨t', by simp [hpx, ht'], hk, hr, hb⟩
      · exact ⟨t, by simp [hpx, hmem], rfl, le_refl _, rfl⟩

theorem updateFirst_find_mem (p : TileRecord → Bool) (f : TileRecord → TileRecord)
    (ts : List TileRecord) (t : TileRecord) (h : ts.find? p = some t) :
    f t ∈ updateFirst p f ts := by
  induction ts with
  | nil => simp [List.find?] at h
  | cons x xs ih =>
    simp only [updateFirst]
    cases hpx : p x
    · rw [List.find?_cons_of_neg _ (by simp [hpx])] at h
      simp [hpx, ih h]
    · rw [List.find?_cons_of_pos _ hpx] at h
      cases h
      simp [hpx]

theorem clockPass_pinned (budget : Nat) (ts : List TileRecord) (total : Nat)
    (t : TileRecord) (ht : t ∈ ts) (hrc : 0 < t.refcount) :
    ∃ t' ∈ (clockPass budget ts total).1,
      t'.key = t.key ∧ t'.refcount = t.refcount ∧ t'.bytes = t.bytes := by
  induction ts generalizing total with
  | nil => cases ht
  | cons x xs ih =>
    simp only [clockPass]
    by_cases h1 : total ≤ budget
    · exact ⟨t, by simp [h1, ht], rfl, rfl, rfl⟩
    · simp only [if_neg h1]
      by_cases h2 : x.used
      · simp only [if_pos h2]
        rcases List.mem_cons.mp ht with rfl | hmem
        · exact ⟨{ t with used := false }, by simp, rfl, rfl, rfl⟩
        · rcases ih total hmem with ⟨t', ht', hk, hr, hb⟩
          exact ⟨t', by simp [ht'], hk, hr, hb⟩
      · simp only [if_neg h2]
        by_cases h3 : x.refcount = 0
        · simp only [if_pos h3]
          rcases List.mem_cons.mp ht with rfl | hmem
          · omega
          · exact ih (total - x.bytes) hmem
        · simp only [if_neg h3]
          rcases List.mem_cons.mp ht with rfl | hmem
          · exact ⟨t, by simp, rfl, rfl, rfl⟩
          · rcases ih total hmem with ⟨t', ht', hk, hr, hb⟩
            exact ⟨t', by simp [ht'], hk, hr, hb⟩

theorem evictLoop_pinned (budget fuel : Nat) (ts : List TileRecord) (total : Nat)
    (t : TileRecord) (ht : t ∈ ts) (hrc : 0 < t.refcount) :
    ∃ t' ∈ (evictLoop budget fuel ts total).1,
      t'.key = t.key ∧ t'.refcount = t.refcount ∧ t'.bytes = t.bytes := by
  induction fuel generalizing ts total t with
  | zero => exact ⟨t, ht, rfl, rfl, rfl⟩
  | succ fuel ih =>
    simp only [evictLoop]
    by_cases h1 : total ≤ budget
    · exact ⟨t, by simp [h1, ht], rfl, rfl, rfl⟩
    · simp only [if_neg h1]
      rcases clockPass_pinned budget ts total t ht hrc with ⟨t1, ht1, hk1, hr1, hb1⟩
      by_cases h2 : (clockPass budget ts total).2.2
      · simp only [if_pos h2]
        rcases ih _ _ t1 ht1 (hr1 ▸ hrc) with ⟨t2, ht2, hk2, hr2, hb2⟩
        exact ⟨t2, ht2, hk2.trans hk1, hr2.trans hr1, hb2.trans hb1⟩
      · exact ⟨t1, by simp [h2, ht1], hk1, hr1, hb1⟩

theorem releaseList_other (k : TileKey) (ts : List TileRecord) (t : TileRecord)
    (ht : t ∈ ts) (hne : t.key ≠ k) : t ∈ releaseList k ts := by
  induction ts with
  | nil => cases ht
  | cons x xs ih =>
    simp only [releaseList]
    rcases List.mem_cons.mp ht with rfl | hmem
    · simp only [if_neg hne]
      exact List.mem_cons_self _ _
    · by_cases hx : x.key = k
      · simp only [if_pos hx]
        by_cases hbr : x.broken ∧ x.refcount ≤ 1
        · simpa [hbr] using hmem
        · simp [hbr, hmem]
      · simp [hx, ih hmem]

theorem releaseList_self (k : TileKey) (ts : List TileRecord) (t : TileRecord)
    (ht : t ∈ ts) (hk : t.key = k) (hrc : 2 ≤ t.refcount) :
    ∃ t' ∈ releaseList k ts, t'.key = t.key ∧ t'.bytes = t.bytes := by
  induction ts with
  | nil => cases ht
  | cons x xs ih =>
    simp only [releaseList]
    rcases List.mem_cons.mp ht with rfl | hmem
    · simp only [if_pos hk]
      have hbr : ¬(t.broken ∧ t.refcount ≤ 1) := by omega
      exact ⟨{ t with refcount := t.refcount - 1 }, by simp [hbr], rfl, rfl⟩
    · by_cases hx : x.key = k
      · simp only [if_pos hx]
        by_cases hbr : x.broken ∧ x.refcount ≤ 1
        · exact ⟨t, by simp [hbr, hmem], rfl, rfl⟩
        · exact ⟨t, by simp [hbr, hmem], rfl, rfl⟩
      · rcases ih hmem with ⟨t', ht', h1, h2⟩
        exact ⟨t', by simp [hx, ht'], h1, h2⟩

theorem invalidateList_pinned (fid : Nat) (ts : List TileRecord) (t : TileRecord)
    (ht : t ∈ ts) (hrc : 0 < t.refcount) :
    ∃ t' ∈ invalidateList fid ts,
      t'.key = t.key ∧ t'.refcount = t.refcount ∧ t'.bytes = t.bytes := by
  induction ts with
  | nil => cases ht
  | cons x xs ih =>
    simp only [invalidateList]
    rcases List.mem_cons.mp ht with rfl | hmem
    · by_cases hx : t.key.fileID = fid
      · have h0 : ¬t.refcount = 0 := by omega
        exact ⟨{ t with broken := true }, by simp [hx, h0], rfl, rfl, rfl⟩
      · exact ⟨t, by simp [hx], rfl, rfl, rfl⟩
    · rcases ih hmem with ⟨t', ht', h1, h2, h3⟩
      by_cases hx : x.key.fileID = fid
      · by_cases h0 : x.refcount = 0
        · exact ⟨t', by simp [hx, h0, ht'], h1, h2, h3⟩
        · exact ⟨t', by simp [hx, h0, ht'], h1, h2, h3⟩
      · exact ⟨t', by simp [hx, ht'], h1, h2, h3⟩

theorem invalidateList_broken (fid : Nat) (ts : List TileRecord) :
    ∀ t ∈ invalidateList fid ts, t.key.fileID = fid → t.broken ∧ 0 < t.refcount := by
  induction ts with
  | nil => intro t ht; cases ht
  | cons x xs ih =>
    intro t ht hfid
    simp only [invalidateList] at ht
    by_cases hx : x.key.fileID = fid
    · by_cases h0 : x.refcount = 0
      · rw [if_pos hx, if_pos h0] at ht
        exact ih t ht hfid
      · rw [if_pos hx, if_neg h0] at ht
        rcases List.mem_cons.mp ht with rfl | hmem
        · exact ⟨rfl, by simpa using Nat.pos_of_ne_zero h0⟩
        · exact ih t hmem hfid
    · rw [if_neg hx] at ht
      rcases List.mem_cons.mp ht with rfl | hmem
      · exact absurd hfid hx
      · exact ih t hmem hfid

theorem residentBytes_nil : residentBytes [] = 0 := rfl

theorem residentBytes_cons (x : TileRecord) (xs : List TileRecord) :
    residentBytes (x :: xs) = x.bytes + residentBytes xs := by
  simp [residentBytes]

theorem clockPass_sum (budget : Nat) (ts : List TileRecord) (total : Nat)
    (hle : residentBytes ts ≤ total) :
    (clockPass budget ts total).2.1 + residentBytes ts
      = total + residentBytes (clockPass budget ts total).1 := by
  induction ts generalizing total with
  | nil => simp [clockPass]
  | cons x xs ih =>
    simp only [clockPass]
    have hxs : residentBytes xs ≤ total := by
      simp only [residentBytes_cons] at hle ⊢
      omega
    by_cases h1 : total ≤ budget
    · simp [h1]
    · simp only [if_neg h1]
      by_cases h2 : x.used
      · simp only [if_pos h2]
        have := ih total hxs
        simp only [residentBytes_cons] at this ⊢
        omega
      · simp only [if_neg h2]
        by_cases h3 : x.refcount = 0
        · simp only [if_pos h3]
          have hx : x.bytes ≤ total := by
            simp only [residentBytes_cons] at hle
            omega
          have hxs2 : residentBytes xs ≤ total - x.bytes := by
            simp only [residentBytes_cons] at hle
            omega
          have := ih (total - x.bytes) hxs2
          simp only [residentBytes_cons] at this ⊢
          omega
        · simp only [if_neg h3]
          have := ih total hxs
          simp only [residentBytes_cons] at this ⊢
          omega

theorem clockPass_bytes_le (budget : Nat) (ts : List TileRecord) (total : Nat) :
    residentBytes (clockPass budget ts total).1 ≤ residentBytes ts := by
  induction ts generalizing total with
  | nil => simp [clockPass]
  | cons x xs ih =>
    simp only [clockPass]
    by_cases h1 : total ≤ budget
    · simp [h1]
    · simp only [if_neg h1]
      by_cases h2 : x.used
      · simp only [if_pos h2]
        have := ih total
        simp only [residentBytes_cons] at this ⊢
        omega
      · simp only [if_neg h2]
        by_cases h3 : x.refcount = 0
        · simp only [if_pos h3]
          have := ih (total - x.bytes)
          simp only [residentBytes_cons] at this ⊢
          omega
        · simp only [if_neg h3]
          have := ih total
          simp only [residentBytes_cons] at this ⊢
          omega

theorem clockPass_measure (budget : Nat) (ts : List TileRecord) (total : Nat) :
    clockMeasure (clockPass budget ts total).1
      + (if (clockPass budget ts total).2.2 then 1 else 0) ≤ clockMeasure ts := by
  induction ts generalizing total with
  | nil => simp [clockPass]
  | cons x xs ih =>
    simp only [clockPass]
    by_cases h1 : total ≤ budget
    · simp [h1]
    · simp only [if_neg h1]
      by_cases h2 : x.used
      · simp only [if_pos h2]
        have := ih total
        simp only [clockMeasure, List.length_cons, List.countP_cons] at this ⊢
        simp only [h2]
        split at this <;> simp_all <;> omega
      · simp only [if_neg h2]
        by_cases h3 : x.refcount = 0
        · simp only [if_pos h3]
          have := ih (total - x.bytes)
          simp only [clockMeasure, List.length_cons, List.countP_cons] at this ⊢
          simp only [h2]
          split at this <;> simp_all <;> omega
        · simp only [if_neg h3]
          have := ih total
          simp only [clockMeasure, List.length_cons, List.countP_cons] at this ⊢
          simp only [h2]
          split at this <;> split <;> simp_all <;> omega

theorem clockPass_noProgress (budget : Nat) (ts : List TileRecord) (total : Nat)
    (h : (clockPass budget ts total).2.2 = false) :
    (clockPass budget ts total).2.1 ≤ budget ∨
      ∀ t ∈ (clockPass budget ts total).1, 0 < t.refcount := by
  induction ts generalizing total with
  | nil => exact Or.inr (by simp [clockPass])
  | cons x xs ih =>
    simp only [clockPass] at h ⊢
    by_cases h1 : total ≤ budget
    · simp only [if_pos h1]
      exact Or.inl h1
    · simp only [if_neg h1] at h ⊢
      by_cases h2 : x.used
      · simp [h2] at h
      · simp only [if_neg h2] at h ⊢
        by_cases h3 : x.refcount = 0
        · simp [h3] at h
        · simp only [if_neg h3] at h ⊢
          rcases ih total h with hle | hall
          · exact Or.inl hle
          · refine Or.inr ?_
            intro t ht
            rcases List.mem_cons.mp ht with rfl | hmem
            · omega
            · exact hall t hmem

theorem evictLoop_post (budget fuel : Nat) (ts : List TileRecord) (total : Nat)
    (hfuel : clockMeasure ts ≤ fuel) (htot : total = residentBytes ts) :
    (evictLoop budget fuel ts total).2
        = residentBytes (evictLoop budget fuel ts total).1 ∧
      ((evictLoop budget fuel ts total).2 ≤ budget ∨
        ∀ t ∈ (evictLoop budget fuel ts total).1, 0 < t.refcount) := by
  induction fuel generalizing ts total with
  | zero =>
    have hnil : ts = [] := by
      cases ts with
      | nil => rfl
      | cons x xs => simp [clockMeasure] at hfuel
    subst hnil
    simp only [evictLoop]
    exact ⟨htot, Or.inl (by simp [residentBytes] at htot; omega)⟩
  | succ fuel ih =>
    simp only [evictLoop]
    by_cases h1 : total ≤ budget
    · simp only [if_pos h1]
      exact ⟨htot, Or.inl h1⟩
    · simp only [if_neg h1]
      have hsum := clockPass_sum budget ts total (le_of_eq htot.symm)
      have hpasstot : (clockPass budget ts total).2.1
          = residentBytes (clockPass budget ts total).1 := by omega
      have hmeas := clockPass_measure budget ts total
      by_cases h2 : (clockPass budget ts total).2.2
      · simp only [if_pos h2]
        refine ih _ _ ?_ hpasstot
        rw [if_pos h2] at hmeas
        omega
      · simp only [if_neg h2]
        refine ⟨hpasstot, ?_⟩
        rcases clockPass_noProgress budget ts total (by simpa using h2) with hle | hall
        · exact Or.inl hle
        · exact Or.inr hall

/-! Claim C1: pinned tiles are never freed; returned tiles are referenced. -/

/-- C1: for every tile pointer handed to a client by get_tile (or the tile
cache's find), the tile remains resident and is never freed or evicted until
the matching releases happen: (1) a tile with nonzero refcount survives every
operation other than a release of that very tile, with its identity and byte
size intact; (2) a release of a tile that still has other outstanding refs
does not free it; (3) every tile returned by find has refcount ≥ 1 at the
moment of return and is resident; (4) every tile returned by insert is
resident with refcount ≥ 1. -/
theorem claim_C1 :
    (∀ (s : CacheState) (op : Op) (t : TileRecord),
        t ∈ s.tiles → 0 < t.refcount → op ≠ Op.releaseOp t.key →
        ∃ t' ∈ (step op s).tiles,
          t'.key = t.key ∧ t.refcount ≤ t'.refcount ∧ t'.bytes = t.bytes) ∧
    (∀ (s : CacheState) (t : TileRecord),
        t ∈ s.tiles → 2 ≤ t.refcount →
        ∃ t' ∈ (step (Op.releaseOp t.key) s).tiles,
          t'.key = t.key ∧ t'.bytes = t.bytes) ∧
    (∀ (s : CacheState) (k : TileKey) (r : TileRecord),
        (findTile k s).1 = some r → 1 ≤ r.refcount ∧ r ∈ (findTile k s).2.tiles) ∧
    (∀ (s : CacheState) (k : TileKey) (b : Nat),
        ∃ t' ∈ (insertTile k b s).tiles, t'.key = k ∧ 1 ≤ t'.refcount) := by
  refine ⟨?_, ?_, ?_, ?_⟩
  · intro s op t ht hrc hop
    cases op with
    | findOp k =>
      simp only [step, findTile]
      cases hf : s.tiles.find? (fun t => t.key = k ∧ ¬t.broken) with
      | none => exact ⟨t, ht, rfl, le_refl _, rfl⟩
      | some t0 => exact updateFirst_bump_survive _ s.tiles t ht
    | insertOp k b =>
      simp only [step, insertTile]
      by_cases hany : s.tiles.any (fun t => t.key = k)
      · simp only [if_pos hany]
        exact updateFirst_bump_survive _ s.tiles t ht
      · simp only [if_neg hany]
        rcases evictLoop_pinned s.budget _ (s.tiles ++ [⟨k, b, 1, true, false⟩]) _
            t (List.mem_append_left _ ht) hrc with ⟨t', ht', h1, h2, h3⟩
        exact ⟨t', ht', h1, le_of_eq h2.symm, h3⟩
    | releaseOp k =>
      have hk : t.key ≠ k := fun h => hop (by rw [h])
      exact ⟨t, releaseList_other k s.tiles t ht hk, rfl, le_refl _, rfl⟩
    | invalidateOp fid force cur =>
      simp only [step, invalidateFile]
      cases hl : lookupFile fid s with
      | none => exact ⟨t, ht, rfl, le_refl _, rfl⟩
      | some fr =>
        by_cases hc : force ∨ fr.mtime ≠ cur
        · simp only [if_pos hc]
          rcases invalidateList_pinned fid s.tiles t ht hrc with ⟨t', ht', h1, h2, h3⟩
          exact ⟨t', ht', h1, le_of_eq h2.symm, h3⟩
        · simp only [if_neg hc]
          exact ⟨t, ht, rfl, le_refl _, rfl⟩
  · intro s t ht hrc
    exact releaseList_self t.key s.tiles t ht rfl hrc
  · intro s k r h
    simp only [findTile] at h ⊢
    cases hf : s.tiles.find? (fun t => t.key = k ∧ ¬t.broken) with
    | none => rw [hf] at h; cases h
    | some t0 =>
      rw [hf] at h
      cases h
      exact ⟨by simp [bump], updateFirst_find_mem _ bump s.tiles t0 hf⟩
  · intro s k b
    simp only [insertTile]
    by_cases hany : s.tiles.any (fun t => t.key = k)
    · simp only [if_pos hany]
      have hsome : (s.tiles.find? (fun t => t.key = k)).isSome := by
        rw [List.find?_isSome]
        simpa using hany
      rcases Option.isSome_iff_exists.mp hsome with ⟨t0, hf⟩
      have hk : t0.key = k := by
        have := List.find?_some hf
        simpa using this
      exact ⟨bump t0, updateFirst_find_mem _ bump s.tiles t0 hf,
        by simpa [bump] using hk, by simp [bump]⟩
    · simp only [if_neg hany]
      have hmem : (⟨k, b, 1, true, false⟩ : TileRecord)
          ∈ s.tiles ++ [⟨k, b, 1, true, false⟩] :=
        List.mem_append_right _ (List.mem_singleton.mpr rfl)
      rcases evictLoop_pinned s.budget _ (s.tiles ++ [⟨k, b, 1, true, false⟩]) _
          ⟨k, b, 1, true, false⟩ hmem (by simp) with ⟨t', ht', h1, h2, h3⟩
      exact ⟨t', ht', h1, by rw [h2]⟩

/-- Concrete tile key and records used by the witnesses. -/
def wKey1 : TileKey := ⟨1, 0, 0, 0, 0, 0, 0, 4⟩

/-- Second concrete tile key (distinct from `wKey1`). -/
def wKey2 : TileKey := ⟨2, 0, 0, 64, 0, 0, 0, 4⟩

/-- Concrete resident tile with one outstanding reference. -/
def wTile1 : TileRecord := ⟨wKey1, 100, 1, false, false⟩

/-- Concrete resident tile with two outstanding references. -/
def wTile2 : TileRecord := ⟨wKey1, 100, 2, false, false⟩

/-- Concrete cache state holding `wTile1`. -/
def wState1 : CacheState := ⟨[wTile1], [], 1000⟩

/-- Concrete cache state holding `wTile2`. -/
def wState2 : CacheState := ⟨[wTile2], [], 1000⟩

/-- Witness for C1: the four conjuncts instantiated at concrete states. -/
theorem claim_C1_witness :
    (∃ t' ∈ (step (Op.findOp wKey1) wState1).tiles,
        t'.key = wTile1.key ∧ wTile1.refcount ≤ t'.refcount
          ∧ t'.bytes = wTile1.bytes) ∧
    (∃ t' ∈ (step (Op.releaseOp wTile2.key) wState2).tiles,
        t'.key = wTile2.key ∧ t'.bytes = wTile2.bytes) ∧
    (1 ≤ (bump wTile1).refcount ∧ bump wTile1 ∈ (findTile wKey1 wState1).2.tiles) ∧
    (∃ t' ∈ (insertTile wKey2 7 wState1).tiles, t'.key = wKey2 ∧ 1 ≤ t'.refcount) :=
  ⟨claim_C1.1 wState1 (Op.findOp wKey1) wTile1 (by decide) (by decide) (by decide),
   claim_C1.2.1 wState2 wTile2 (by decide) (by decide),
   claim_C1.2.2.1 wState1 wKey1 (bump wTile1) (by decide),
   claim_C1.2.2.2 wState1 wKey2 7⟩

/-! Claim C2: memory is bounded by the budget, up to pinned tiles. -/

/-- C2 (amended): after an insertion of a new tile completes and the eviction
scan has run, either the resident bytes are within the budget, or every tile
still resident is pinned by an outstanding reference (refcount > 0) — pinned
tiles cannot be evicted and may hold the total above the budget by more than
the single in-flight tile. -/
theorem claim_C2_amended (s : CacheState) (k : TileKey) (b : Nat)
    (hfresh : ∀ t ∈ s.tiles, t.key ≠ k) :
    residentBytes (insertTile k b s).tiles ≤ s.budget ∨
      ∀ t ∈ (insertTile k b s).tiles, 0 < t.refcount := by
  have hany : ¬s.tiles.any (fun t => t.key = k) = true := by
    simp only [List.any_eq_true, not_exists]
    intro t
    simp only [decide_eq_true_eq, not_and]
    exact fun ht => hfresh t ht
  simp only [insertTile, if_neg hany]
  rcases evictLoop_post s.budget (clockMeasure (s.tiles ++ [⟨k, b, 1, true, false⟩]))
      (s.tiles ++ [⟨k, b, 1, true, false⟩])
      (residentBytes (s.tiles ++ [⟨k, b, 1, true, false⟩]))
      (le_refl _) rfl with ⟨heq, hdisj⟩
  rw [heq] at hdisj
  exact hdisj

/-- Witness for the amended C2 at a concrete state and fresh key. -/
theorem claim_C2_amended_witness :
    residentBytes (insertTile wKey2 7 wState1).tiles ≤ wState1.budget ∨
      ∀ t ∈ (insertTile wKey2 7 wState1).tiles, 0 < t.refcount :=
  claim_C2_amended wState1 wKey2 7 (by decide)

/-- Concrete tile key family for the C2 counterexample. -/
def cexKey (n : Nat) : TileKey := ⟨0, 0, 0, (n : Int), 0, 0, 0, 4⟩

/-- Empty cache with a 1-byte budget. -/
def cexInit : CacheState := ⟨[], [], 1⟩

/-- Three insertions of distinct 1-byte tiles whose refs are never released. -/
def cexOps : List Op :=
  [Op.insertOp (cexKey 0) 1, Op.insertOp (cexKey 1) 1, Op.insertOp (cexKey 2) 1]

/-- Counterexample to C2 as stated: with a budget of 1 byte, after three
completed insertions of 1-byte tiles whose references are still held (so no
insertion is in flight and the largest tile ever in flight was 1 byte), the
resident bytes are 3, exceeding the budget by more than the size of the
largest in-flight tile: pinned tiles cannot be evicted. -/
theorem claim_C2_counterexample :
    (runOps cexInit cexOps).budget = 1 ∧
    residentBytes (runOps cexInit cexOps).tiles = 3 ∧
    ¬ residentBytes (runOps cexInit cexOps).tiles
        ≤ (runOps cexInit cexOps).budget + 1 := by decide

/-! Claim C7: invalidation is skipped when the modification time matches. -/

/-- C7: `invalidate(file, force=false)` leaves the file's record, open handle,
and cached tiles unchanged when the file's current modification time equals
the one recorded at first open; the file is invalidated whenever the
modification time differs, and always when `force=true` (its record is gone
and its only surviving tiles are referenced ones, marked broken). -/
theorem claim_C7 (s : CacheState) (fid : Nat) (cur : Int) (fr : FileRec)
    (hfr : lookupFile fid s = some fr) :
    (fr.mtime = cur → invalidateFile fid false cur s = s) ∧
    ∀ force : Bool, force = true ∨ fr.mtime ≠ cur →
      lookupFile fid (invalidateFile fid force cur s) = none ∧
      ∀ t ∈ (invalidateFile fid force cur s).tiles,
        t.key.fileID = fid → t.broken ∧ 0 < t.refcount := by
  constructor
  · intro heq
    simp only [invalidateFile, hfr]
    rw [if_neg]
    simp [heq]
  · intro force hforce
    have hc : (force : Prop) ∨ fr.mtime ≠ cur := by
      rcases hforce with h | h
      · exact Or.inl (by simp [h])
      · exact Or.inr h
    simp only [invalidateFile, hfr, if_pos hc]
    constructor
    · simp only [lookupFile]
      rw [List.find?_eq_none]
      intro f hf
      have := (List.mem_filter.mp hf).2
      simpa using this
    · exact invalidateList_broken fid s.tiles

/-- Concrete file record for the C7 witness. -/
def wFile : FileRec := ⟨5, 10⟩

/-- Concrete cache state holding `wFile` and one of its tiles. -/
def wStateF : CacheState :=
  ⟨[⟨⟨5, 0, 0, 0, 0, 0, 0, 4⟩, 8, 1, false, false⟩], [wFile], 100⟩

/-- Witness for C7: matching mtime with force=false is a no-op; force=true
invalidates the record and leaves only broken, referenced tiles. -/
theorem claim_C7_witness :
    invalidateFile 5 false 10 wStateF = wStateF ∧
    (lookupFile 5 (invalidateFile 5 true 10 wStateF) = none ∧
      ∀ t ∈ (invalidateFile 5 true 10 wStateF).tiles,
        t.key.fileID = 5 → t.broken ∧ 0 < t.refcount) :=
  ⟨(claim_C7 wStateF 5 10 wFile (by decide)).1 (by decide),
   (claim_C7 wStateF 5 10 wFile (by decide)).2 true (Or.inl rfl)⟩

/-! The pixel-gather path: `get_pixels`, `get_tile`, `add_tile` (§4.F/4.G). -/

/-- Modelled from the spec (§4.G): the pixel data types the cache converts
between; one narrow integer format and one wide float format suffice for the
conversion claims. -/
inductive PixFmt where
  | u8
  | f32
deriving DecidableEq, Repr

/-- Modelled from the spec (§4.G step 3): type conversion between formats:
lossless when widening, saturating for the narrow integer target, identity
between equal formats.  Pixel values are carried as `Int`. -/
def convertVal : PixFmt → PixFmt → Int → Int
  | .u8, .f32, v => v
  | .f32, .u8, v => max 0 (min 255 v)
  | .u8, .u8, v => v
  | .f32, .f32, v => v

theorem convertVal_self (a : PixFmt) (v : Int) : convertVal a a v = v := by
  cases a <;> rfl

/-- Modelled from the spec (§3 "FileRecord"/"SubimageInfo" and §4.F): one
(subimage, miplevel) slice of an image file as the reader sees it: the pixel
data window (half-open on each axis), the channel count, the cached tile
dimensions, the cached pixel format, and the decoded pixel values (already in
the cache format). -/
structure ImageFileM where
  x0 : Int
  x1 : Int
  y0 : Int
  y1 : Int
  z0 : Int
  z1 : Int
  nchannels : Nat
  tilew : Nat
  tileh : Nat
  tiled : Nat
  cachedFormat : PixFmt
  pixel : Int → Int → Int → Nat → Int

/-- Is (x, y, z) inside the file's valid pixel data window? -/
def inWindowP (f : ImageFileM) (x y z : Int) : Prop :=
  f.x0 ≤ x ∧ x < f.x1 ∧ f.y0 ≤ y ∧ y < f.y1 ∧ f.z0 ≤ z ∧ z < f.z1

instance (f : ImageFileM) (x y z : Int) : Decidable (inWindowP f x y z) := by
  unfold inWindowP; infer_instance

/-- Modelled from the spec (§4.F edge cases): the reader's view of a tile's
pixels, addressed by absolute coordinates: pixels outside the file's data
window are zero-filled, the rest carry the decoded values. -/
def decodeTile (f : ImageFileM) : Int → Int → Int → Nat → Int :=
  fun x y z c => if inWindowP f x y z ∧ c < f.nchannels then f.pixel x y z c else 0

/-- Pixel payload of a tile (or of a destination buffer), addressed by
absolute coordinates. -/
def TileData : Type := Int → Int → Int → Nat → Int

/-- The tile store used by the gather: tile key to pixel payload. -/
def TileStore : Type := List (TileKey × TileData)

/-- Look up a tile's payload by key. -/
def lookupTile (cache : TileStore) (k : TileKey) : Option TileData :=
  (cache.find? (fun p => p.1 = k)).map Prod.snd

/-- Modelled from the spec (§4.B `insert`): insert a tile; if the key already
exists the new record is discarded. -/
def insertTileData (cache : TileStore) (k : TileKey) (d : TileData) : TileStore :=
  if cache.any (fun p => p.1 = k) then cache else (k, d) :: cache

/-- The payload used for a tile key: the cached payload if resident,
otherwise what the reader decodes from the file. -/
def tileDataFor (f : ImageFileM) (cache : TileStore) (k : TileKey) : TileData :=
  (lookupTile cache k).getD (decodeTile f)

/-- Modelled from the spec (§3 "TileKey" and §4.F, header `get_tile` and
`add_tile` doc): channel-range normalization: a requested range with
`chend < chbegin` denotes all channels of the file and is stored as
(0, nchannels); otherwise the requested subset is stored as given. -/
def normChannels (chbegin chend : Int) (nchannels : Nat) : Nat × Nat :=
  if chend < chbegin then (0, nchannels) else (chbegin.toNat, chend.toNat)

/-- Align coordinate `v` down to the tile grid of period `t` anchored at the
data-window origin `o`. -/
def align (o : Int) (t : Nat) (v : Int) : Int :=
  v - (v - o) % (t : Int)

/-- The tile-aligned origin of the tile containing (x, y, z). -/
def tileOriginOf (f : ImageFileM) (x y z : Int) : Int × Int × Int :=
  (align f.x0 f.tilew x, align f.y0 f.tileh y, align f.z0 f.tiled z)

/-- The ROI of a pixel request: half-open pixel ranges and channel range. -/
structure ROIg where
  xbegin : Int
  xend : Int
  ybegin : Int
  yend : Int
  zbegin : Int
  zend : Int
  chbegin : Nat
  chend : Nat
deriving DecidableEq, Repr

/-- The integers in [lo, hi). -/
def intRange (lo hi : Int) : List Int :=
  (List.range (hi - lo).toNat).map (fun i : Nat => lo + (i : Int))

theorem mem_intRange (lo hi v : Int) : v ∈ intRange lo hi ↔ lo ≤ v ∧ v < hi := by
  simp only [intRange, List.mem_map, List.mem_range]
  constructor
  · rintro ⟨i, hi2, rfl⟩
    omega
  · rintro ⟨h1, h2⟩
    exact ⟨(v - lo).toNat, by omega, by omega⟩

/-- Modelled from the spec (§4.G step 1): the ROI clipped against the
subimage data window, as the list of its (x, y, z) positions. -/
def clippedPositions (f : ImageFileM) (roi : ROIg) : List (Int × Int × Int) :=
  (intRange (max roi.zbegin f.z0) (min roi.zend f.z1)).flatMap (fun z =>
    (intRange (max roi.ybegin f.y0) (min roi.yend f.y1)).flatMap (fun y =>
      (intRange (max roi.xbegin f.x0) (min roi.xend f.x1)).map (fun x => (x, y, z))))

theorem mem_clippedPositions (f : ImageFileM) (roi : ROIg) (x y z : Int) :
    (x, y, z) ∈ clippedPositions f roi ↔
      (max roi.xbegin f.x0 ≤ x ∧ x < min roi.xend f.x1) ∧
      (max roi.ybegin f.y0 ≤ y ∧ y < min roi.yend f.y1) ∧
      (max roi.zbegin f.z0 ≤ z ∧ z < min roi.zend f.z1) := by
  simp only [clippedPositions, List.mem_flatMap, List.mem_map, mem_intRange]
  constructor
  · rintro ⟨z', hz, y', hy, x', hx, h⟩
    cases h
    exact ⟨hx, hy, hz⟩
  · rintro ⟨hx, hy, hz⟩
    exact ⟨z, hz, y, hy, x, hx, rfl⟩

/-- Modelled from the spec (§4.G step 2): the tile keys covering the clipped
ROI on the virtual tile grid, one per touched tile. -/
def tileOrigins (f : ImageFileM) (roi : ROIg) : List (Int × Int × Int) :=
  ((clippedPositions f roi).map (fun p => tileOriginOf f p.1 p.2.1 p.2.2)).dedup

/-- The cache key for the tile with origin `g`, for the given file slice and
cached channel range. -/
def gatherKey (fid sub mip : Nat) (g : Int × Int × Int) (cr : Nat × Nat) : TileKey :=
  ⟨fid, sub, mip, g.1, g.2.1, g.2.2, cr.1, cr.2⟩

/-- Modelled from the spec (§4.G step 3): copy the part of one tile that
falls inside the clipped ROI and the requested channel range into the
destination, converting from the cache format to the requested format. -/
def writeTile (f : ImageFileM) (cache : TileStore) (fid sub mip : Nat)
    (cr : Nat × Nat) (roi : ROIg) (destFmt : PixFmt)
    (dest : TileData) (g : Int × Int × Int) : TileData :=
  fun x y z c =>
    if g.1 ≤ x ∧ x < g.1 + f.tilew ∧ g.2.1 ≤ y ∧ y < g.2.1 + f.tileh ∧
        g.2.2 ≤ z ∧ z < g.2.2 + f.tiled ∧
        (max roi.xbegin f.x0 ≤ x ∧ x < min roi.xend f.x1) ∧
        (max roi.ybegin f.y0 ≤ y ∧ y < min roi.yend f.y1) ∧
        (max roi.zbegin f.z0 ≤ z ∧ z < min roi.zend f.z1) ∧
        roi.chbegin ≤ c ∧ c < roi.chend ∧ cr.1 ≤ c ∧ c < cr.2 then
      convertVal f.cachedFormat destFmt
        (tileDataFor f cache (gatherKey fid sub mip g cr) x y z c)
    else dest x y z c

/-- Modelled from the spec (§4.G): `get_pixels`: clip the ROI against the
data window, decompose it into tile keys, and for each tile copy its
sub-rectangle into the destination with format conversion; the destination
starts zeroed, so requested pixels outside the data window stay zero.
`ccb`/`cce` are the cache channel range arguments (a non-positive range
denotes all channels). -/
def get_pixels (f : ImageFileM) (fid sub mip : Nat) (cache : TileStore)
    (roi : ROIg) (destFmt : PixFmt) (ccb cce : Int) : TileData :=
  (tileOrigins f roi).foldl
    (writeTile f cache fid sub mip (normChannels ccb cce f.nchannels) roi destFmt)
    (fun _ _ _ _ => 0)

/-- Modelled from the header (`get_tile`, lines 1150–1159) and spec §4.B/4.F:
find the tile containing pixel (x, y, z) with the requested channel range
(`chend < chbegin` denotes all channels); the result is the tile's key and
its payload restricted to the stored channel range. -/
def get_tile (f : ImageFileM) (fid sub mip : Nat) (cache : TileStore)
    (x y z : Int) (chbegin chend : Int) : TileKey × TileData :=
  let cr := normChannels chbegin chend f.nchannels
  let k := gatherKey fid sub mip (tileOriginOf f x y z) cr
  (k, fun x y z c =>
        if cr.1 ≤ c ∧ c < cr.2 then tileDataFor f cache k x y z c else 0)

/-- The key under which `add_tile` stores a tile whose corner is (x, y, z)
with the requested channel range (normalized). -/
def addTileKey (f : ImageFileM) (fid sub mip : Nat) (x y z : Int)
    (chbegin chend : Int) : TileKey :=
  gatherKey fid sub mip (x, y, z) (normChannels chbegin chend f.nchannels)

/-- Modelled from the header (`add_tile`, lines 1222–1249) and spec §4.B:
insert a caller-supplied tile whose corner is (x, y, z): the buffer's pixels
(in format `fmt`) are converted to the cache format and stored under the
normalized key; if the key is already resident the new record is discarded. -/
def add_tile (f : ImageFileM) (fid sub mip : Nat) (cache : TileStore)
    (x y z : Int) (chbegin chend : Int) (fmt : PixFmt) (buffer : TileData) :
    TileStore :=
  insertTileData cache (addTileKey f fid sub mip x y z chbegin chend)
    (fun x y z c => convertVal fmt f.cachedFormat (buffer x y z c))

/-- The positions of an ROI in canonical order (channel fastest, then x, y,
z), used to flatten a destination buffer into the byte sequence a contiguous
buffer would hold. -/
def roiPositions (roi : ROIg) : List (Int × Int × Int × Nat) :=
  (intRange roi.zbegin roi.zend).flatMap (fun z =>
    (intRange roi.ybegin roi.yend).flatMap (fun y =>
      (intRange roi.xbegin roi.xend).flatMap (fun x =>
        (List.range (roi.chend - roi.chbegin)).map
          (fun i => (x, y, z, roi.chbegin + i)))))

/-- Flatten the requested region of a destination buffer into the list of
its values in canonical order ("the bytes of the contiguous buffer"). -/
def flattenROI (roi : ROIg) (d : TileData) : List Int :=
  (roiPositions roi).map (fun p => d p.1 p.2.1 p.2.2.1 p.2.2.2)

theorem mem_roiPositions (roi : ROIg) (x y z : Int) (c : Nat) :
    (x, y, z, c) ∈ roiPositions roi ↔
      (roi.xbegin ≤ x ∧ x < roi.xend) ∧ (roi.ybegin ≤ y ∧ y < roi.yend) ∧
      (roi.zbegin ≤ z ∧ z < roi.zend) ∧ (roi.chbegin ≤ c ∧ c < roi.chend) := by
  simp only [roiPositions, List.mem_flatMap, List.mem_map, List.mem_range,
    mem_intRange]
  constructor
  · rintro ⟨z', hz, y', hy, x', hx, i, hi, h⟩
    cases h
    exact ⟨hx, hy, hz, by omega, by omega⟩
  · rintro ⟨hx, hy, hz, hc1, hc2⟩
    exact ⟨z, hz, y, hy, x, hx, c - roi.chbegin, by omega, by simp; omega⟩

/-! Alignment facts for the virtual tile grid. -/

theorem align_le (o : Int) (t : Nat) (v : Int) (ht : 0 < t) : align o t v ≤ v := by
  have h := Int.emod_nonneg (v - o) (b := (t : Int)) (by exact_mod_cast Nat.pos_iff_ne_zero.mp ht)
  unfold align
  omega

theorem lt_align_add (o : Int) (t : Nat) (v : Int) (ht : 0 < t) :
    v < align o t v + t := by
  have h := Int.emod_lt_of_pos (v - o) (b := (t : Int)) (by exact_mod_cast ht)
  unfold align
  omega

theorem align_dvd (o : Int) (t : Nat) (v : Int) :
    ∃ i : Int, align o t v = o + t * i := by
  refine ⟨(v - o) / (t : Int), ?_⟩
  have h := Int.ediv_add_emod (v - o) (t : Int)
  unfold align
  linarith

theorem align_eq_of (o : Int) (t : Nat) (v g : Int) (_ht : 0 < t)
    (hg : ∃ i : Int, g = o + t * i) (h1 : g ≤ v) (h2 : v < g + t) :
    align o t v = g := by
  obtain ⟨i, rfl⟩ := hg
  have key : (v - (o + t * i)) % (t : Int) = v - (o + t * i) :=
    Int.emod_eq_of_lt (by linarith) (by linarith)
  have h3 : v - o = (v - (o + (t : Int) * i)) + (t : Int) * i := by ring
  unfold align
  rw [h3, Int.add_mul_emod_self_left, key]
  ring

/-! Generic facts about folding tile writes over a destination buffer. -/

theorem foldl_write_skip {α : Type} (W : TileData → α → TileData)
    (x y z : Int) (c : Nat) (ks : List α) (d0 : TileData)
    (hall : ∀ g ∈ ks, ∀ d : TileData, W d g x y z c = d x y z c) :
    (ks.foldl W d0) x y z c = d0 x y z c := by
  induction ks generalizing d0 with
  | nil => rfl
  | cons g ks ih =>
    rw [List.foldl_cons,
      ih _ (fun g' hg' => hall g' (List.mem_cons_of_mem _ hg')),
      hall g (List.mem_cons_self _ _)]

theorem foldl_write_val {α : Type} (W : TileData → α → TileData)
    (x y z : Int) (c : Nat) (V : Int) (ks : List α) (d0 : TileData)
    (hall : ∀ g ∈ ks, ∀ d : TileData,
      W d g x y z c = d x y z c ∨ W d g x y z c = V)
    (hvs : (∃ g ∈ ks, ∀ d : TileData, W d g x y z c = V) ∨ d0 x y z c = V) :
    (ks.foldl W d0) x y z c = V := by
  induction ks generalizing d0 with
  | nil =>
    rcases hvs with ⟨g, hg, _⟩ | h
    · cases hg
    · exact h
  | cons g ks ih =>
    rw [List.foldl_cons]
    refine ih (W d0 g) (fun g' h' => hall g' (List.mem_cons_of_mem _ h')) ?_
    rcases hvs with ⟨g', hg', hw⟩ | h
    · rcases List.mem_cons.mp hg' with rfl | hmem
      · exact Or.inr (hw d0)
      · exact Or.inl ⟨g', hmem, hw⟩
    · rcases hall g (List.mem_cons_self _ _) d0 with hleave | hwrite
      · exact Or.inr (hleave.trans h)
      · exact Or.inr hwrite

/-- A tile store is coherent with the file when every resident payload agrees
with what the reader would decode, on the tile's own rectangle and stored
channel range.  The empty store is coherent, and so is any store populated by
the reader. -/
def GoodCache (f : ImageFileM) (cache : TileStore) : Prop :=
  ∀ k d, lookupTile cache k = some d →
    ∀ x y z (c : Nat), k.x ≤ x → x < k.x + f.tilew → k.y ≤ y → y < k.y + f.tileh →
      k.z ≤ z → z < k.z + f.tiled → k.chbegin ≤ c → c < k.chend →
      d x y z c = decodeTile f x y z c

theorem goodCache_nil (f : ImageFileM) : GoodCache f [] := by
  intro k d h
  simp [lookupTile] at h

/-- Core characterization of the gather: with a coherent tile store and the
default (all-channels) cache channel range, every requested pixel inside the
data window receives the file's value converted to the requested format, and
every requested pixel outside the data window is zero. -/
theorem get_pixels_char (f : ImageFileM) (fid sub mip : Nat) (cache : TileStore)
    (roi : ROIg) (destFmt : PixFmt)
    (hGood : GoodCache f cache)
    (htw : 0 < f.tilew) (hth : 0 < f.tileh) (htd : 0 < f.tiled)
    (hch : roi.chend ≤ f.nchannels)
    (x y z : Int) (c : Nat)
    (hx : roi.xbegin ≤ x ∧ x < roi.xend)
    (hy : roi.ybegin ≤ y ∧ y < roi.yend)
    (hz : roi.zbegin ≤ z ∧ z < roi.zend)
    (hc : roi.chbegin ≤ c ∧ c < roi.chend) :
    get_pixels f fid sub mip cache roi destFmt 0 (-1) x y z c
      = if inWindowP f x y z then
          convertVal f.cachedFormat destFmt (f.pixel x y z c)
        else 0 := by
  have hcr : normChannels 0 (-1) f.nchannels = (0, f.nchannels) := rfl
  simp only [get_pixels, hcr]
  by_cases hw : inWindowP f x y z
  · rw [if_pos hw]
    obtain ⟨hw1, hw2, hw3, hw4, hw5, hw6⟩ := hw
    have hval : tileDataFor f cache
        (gatherKey fid sub mip (tileOriginOf f x y z) (0, f.nchannels)) x y z c
          = f.pixel x y z c := by
      have hdec : decodeTile f x y z c = f.pixel x y z c := by
        rw [decodeTile, if_pos ⟨⟨hw1, hw2, hw3, hw4, hw5, hw6⟩, by omega⟩]
      unfold tileDataFor
      cases hl : lookupTile cache
          (gatherKey fid sub mip (tileOriginOf f x y z) (0, f.nchannels)) with
      | none => simpa using hdec
      | some d =>
        have := hGood _ d hl x y z c
          (align_le f.x0 f.tilew x htw) (lt_align_add f.x0 f.tilew x htw)
          (align_le f.y0 f.tileh y hth) (lt_align_add f.y0 f.tileh y hth)
          (align_le f.z0 f.tiled z htd) (lt_align_add f.z0 f.tiled z htd)
          (Nat.zero_le c) (by simp only [gatherKey]; omega)
        simpa [hdec] using this
    refine foldl_write_val _ x y z c _ _ _ ?_ ?_
    · intro g hg d
      obtain ⟨p, _, hp⟩ := List.mem_map.mp (List.mem_dedup.mp hg)
      simp only [writeTile]
      split
      · rename_i hguard
        obtain ⟨h1, h2, h3, h4, h5, h6, _⟩ := hguard
        have hg1 : g.1 = align f.x0 f.tilew x := by
          rw [align_eq_of f.x0 f.tilew x g.1 htw ?_ h1 h2]
          rw [← hp]
          exact align_dvd f.x0 f.tilew p.1
        have hg2 : g.2.1 = align f.y0 f.tileh y := by
          rw [align_eq_of f.y0 f.tileh y g.2.1 hth ?_ h3 h4]
          rw [← hp]
          exact align_dvd f.y0 f.tileh p.2.1
        have hg3 : g.2.2 = align f.z0 f.tiled z := by
          rw [align_eq_of f.z0 f.tiled z g.2.2 htd ?_ h5 h6]
          rw [← hp]
          exact align_dvd f.z0 f.tiled p.2.2
        have hgeq : g = tileOriginOf f x y z := by
          rcases g with ⟨gx, gy, gz⟩
          simp only [tileOriginOf]
          exact Prod.ext hg1 (Prod.ext hg2 hg3)
        rw [hgeq, hval]
        exact Or.inr rfl
      · exact Or.inl rfl
    · left
      refine ⟨tileOriginOf f x y z, ?_, ?_⟩
      · apply List.mem_dedup.mpr
        apply List.mem_map.mpr
        refine ⟨(x, y, z), ?_, rfl⟩
        rw [mem_clippedPositions]
        refine ⟨⟨?_, ?_⟩, ⟨?_, ?_⟩, ⟨?_, ?_⟩⟩ <;> omega
      · intro d
        simp only [writeTile]
        rw [if_pos, hval]
        refine ⟨align_le f.x0 f.tilew x htw, lt_align_add f.x0 f.tilew x htw,
          align_le f.y0 f.tileh y hth, lt_align_add f.y0 f.tileh y hth,
          align_le f.z0 f.tiled z htd, lt_align_add f.z0 f.tiled z htd,
          ⟨?_, ?_⟩, ⟨?_, ?_⟩, ⟨?_, ?_⟩, ?_, ?_, ?_, ?_⟩ <;> omega
  · rw [if_neg hw]
    refine foldl_write_skip _ x y z c _ _ ?_
    intro g hg d
    simp only [writeTile]
    rw [if_neg]
    intro hguard
    obtain ⟨_, _, _, _, _, _, hcx, hcy, hcz, _⟩ := hguard
    exact hw ⟨by omega, by omega, by omega, by omega, by omega, by omega⟩

/-! Claim C4: zero-fill outside the data window, file values inside. -/

/-- C4: for every get_pixels request (with the default all-channels cache
range and a tile store coherent with the file), every requested pixel outside
the file's valid pixel data window is written as zero in the destination,
while pixels inside the data window receive the file's pixel values converted
to the requested format.  The display window plays no role in the gather. -/
theorem claim_C4 (f : ImageFileM) (fid sub mip : Nat) (cache : TileStore)
    (roi : ROIg) (destFmt : PixFmt)
    (hGood : GoodCache f cache)
    (htw : 0 < f.tilew) (hth : 0 < f.tileh) (htd : 0 < f.tiled)
    (hch : roi.chend ≤ f.nchannels)
    (x y z : Int) (c : Nat)
    (hx : roi.xbegin ≤ x ∧ x < roi.xend)
    (hy : roi.ybegin ≤ y ∧ y < roi.yend)
    (hz : roi.zbegin ≤ z ∧ z < roi.zend)
    (hc : roi.chbegin ≤ c ∧ c < roi.chend) :
    (¬inWindowP f x y z →
      get_pixels f fid sub mip cache roi destFmt 0 (-1) x y z c = 0) ∧
    (inWindowP f x y z →
      get_pixels f fid sub mip cache roi destFmt 0 (-1) x y z c
        = convertVal f.cachedFormat destFmt (f.pixel x y z c)) := by
  constructor <;> intro h <;>
    rw [get_pixels_char f fid sub mip cache roi destFmt hGood htw hth htd hch
      x y z c hx hy hz hc] <;> simp [h]

/-- Concrete 4×4 single-channel scanline-free file (2×2×1 tiles, float cache
format) used by the gather witnesses. -/
def wF : ImageFileM :=
  ⟨0, 4, 0, 4, 0, 1, 1, 2, 2, 1, PixFmt.f32, fun x y _ _ => x + 10 * y⟩

/-- An ROI reaching past the data window's right edge (x = 4 is outside). -/
def wroi4 : ROIg := ⟨3, 5, 0, 1, 0, 1, 0, 1⟩

/-- Witness for C4: inside the window the gather returns the file's pixel;
one pixel to the right of the data window it returns zero. -/
theorem claim_C4_witness :
    get_pixels wF 1 0 0 [] wroi4 PixFmt.f32 0 (-1) 3 0 0 0
        = convertVal wF.cachedFormat PixFmt.f32 (wF.pixel 3 0 0 0) ∧
    get_pixels wF 1 0 0 [] wroi4 PixFmt.f32 0 (-1) 4 0 0 0 = 0 :=
  ⟨(claim_C4 wF 1 0 0 [] wroi4 PixFmt.f32 (goodCache_nil wF) (by decide)
      (by decide) (by decide) (by decide) 3 0 0 0 (by decide) (by decide)
      (by decide) (by decide)).2 (by decide),
   (claim_C4 wF 1 0 0 [] wroi4 PixFmt.f32 (goodCache_nil wF) (by decide)
      (by decide) (by decide) (by decide) 4 0 0 0 (by decide) (by decide)
      (by decide) (by decide)).1 (by decide)⟩

/-! Claim C3: get_pixels / add_tile / get_pixels round-trip. -/

theorem lookupTile_cons (k0 k : TileKey) (d0 : TileData) (cache : TileStore) :
    lookupTile ((k0, d0) :: cache) k
      = if k0 = k then some d0 else lookupTile cache k := by
  by_cases h : k0 = k
  · simp [lookupTile, List.find?, h]
  · simp [lookupTile, List.find?, h]

theorem normChannels_all (n : Nat) : normChannels 0 (-1) n = (0, n) := rfl

theorem normChannels_full (n : Nat) : normChannels 0 (n : Int) n = (0, n) := by
  simp [normChannels]

/-- C3: reading a full tile-aligned region into a buffer of the cache's own
format, injecting that same buffer back with add_tile (same coordinates,
channel range, and format), and reading the region again yields output
byte-identical to the first read. -/
theorem claim_C3 (f : ImageFileM) (fid sub mip : Nat) (cache : TileStore)
    (roi : ROIg)
    (hGood : GoodCache f cache)
    (htw : 0 < f.tilew) (hth : 0 < f.tileh) (htd : 0 < f.tiled)
    (hxe : roi.xend = roi.xbegin + f.tilew)
    (hye : roi.yend = roi.ybegin + f.tileh)
    (hze : roi.zend = roi.zbegin + f.tiled)
    (hcb : roi.chbegin = 0) (hce : roi.chend = f.nchannels) :
    flattenROI roi (get_pixels f fid sub mip
        (add_tile f fid sub mip cache roi.xbegin roi.ybegin roi.zbegin
          0 (f.nchannels : Int) f.cachedFormat
          (get_pixels f fid sub mip cache roi f.cachedFormat 0 (-1)))
        roi f.cachedFormat 0 (-1))
      = flattenROI roi (get_pixels f fid sub mip cache roi f.cachedFormat 0 (-1)) := by
  have hchar1 : ∀ (x y z : Int) (c : Nat),
      roi.xbegin ≤ x → x < roi.xend → roi.ybegin ≤ y → y < roi.yend →
      roi.zbegin ≤ z → z < roi.zend → roi.chbegin ≤ c → c < roi.chend →
      get_pixels f fid sub mip cache roi f.cachedFormat 0 (-1) x y z c
        = decodeTile f x y z c := by
    intro x y z c h1 h2 h3 h4 h5 h6 h7 h8
    rw [get_pixels_char f fid sub mip cache roi f.cachedFormat hGood htw hth htd
      (le_of_eq hce) x y z c ⟨h1, h2⟩ ⟨h3, h4⟩ ⟨h5, h6⟩ ⟨h7, h8⟩]
    unfold decodeTile
    by_cases hw : inWindowP f x y z
    · rw [if_pos hw, if_pos ⟨hw, by omega⟩, convertVal_self]
    · rw [if_neg hw, if_neg (fun hcon => hw hcon.1)]
  have hGood2 : GoodCache f
      (add_tile f fid sub mip cache roi.xbegin roi.ybegin roi.zbegin
        0 (f.nchannels : Int) f.cachedFormat
        (get_pixels f fid sub mip cache roi f.cachedFormat 0 (-1))) := by
    unfold add_tile insertTileData
    split
    · exact hGood
    · intro k d hlook x y z c hx1 hx2 hy1 hy2 hz1 hz2 hc1 hc2
      rw [lookupTile_cons] at hlook
      by_cases hk : addTileKey f fid sub mip roi.xbegin roi.ybegin roi.zbegin
          0 (f.nchannels : Int) = k
      · rw [if_pos hk] at hlook
        cases hlook
        have hkey : k = ⟨fid, sub, mip, roi.xbegin, roi.ybegin, roi.zbegin,
            0, f.nchannels⟩ := by
          rw [← hk]
          unfold addTileKey gatherKey
          rw [normChannels_full]
        subst hkey
        simp only at hx1 hx2 hy1 hy2 hz1 hz2 hc1 hc2
        simp only [convertVal_self]
        exact hchar1 x y z c hx1 (by omega) hy1 (by omega) hz1 (by omega)
          (by omega) (by omega)
      · rw [if_neg hk] at hlook
        exact hGood k d hlook x y z c hx1 hx2 hy1 hy2 hz1 hz2 hc1 hc2
  have hchar2 : ∀ (x y z : Int) (c : Nat),
      roi.xbegin ≤ x → x < roi.xend → roi.ybegin ≤ y → y < roi.yend →
      roi.zbegin ≤ z → z < roi.zend → roi.chbegin ≤ c → c < roi.chend →
      get_pixels f fid sub mip
          (add_tile f fid sub mip cache roi.xbegin roi.ybegin roi.zbegin
            0 (f.nchannels : Int) f.cachedFormat
            (get_pixels f fid sub mip cache roi f.cachedFormat 0 (-1)))
          roi f.cachedFormat 0 (-1) x y z c
        = decodeTile f x y z c := by
    intro x y z c h1 h2 h3 h4 h5 h6 h7 h8
    rw [get_pixels_char f fid sub mip _ roi f.cachedFormat hGood2 htw hth htd
      (le_of_eq hce) x y z c ⟨h1, h2⟩ ⟨h3, h4⟩ ⟨h5, h6⟩ ⟨h7, h8⟩]
    unfold decodeTile
    by_cases hw : inWindowP f x y z
    · rw [if_pos hw, if_pos ⟨hw, by omega⟩, convertVal_self]
    · rw [if_neg hw, if_neg (fun hcon => hw hcon.1)]
  unfold flattenROI
  refine List.map_congr_left ?_
  intro p hp
  rcases p with ⟨x, y, z, c⟩
  rw [mem_roiPositions] at hp
  obtain ⟨⟨h1, h2⟩, ⟨h3, h4⟩, ⟨h5, h6⟩, h7, h8⟩ := hp
  rw [hchar1 x y z c h1 h2 h3 h4 h5 h6 h7 h8,
    hchar2 x y z c h1 h2 h3 h4 h5 h6 h7 h8]

/-- The tile-aligned 2×2 region at the origin of `wF`. -/
def wroi3 : ROIg := ⟨0, 2, 0, 2, 0, 1, 0, 1⟩

/-- Witness for C3 at the concrete file `wF` and its origin tile. -/
theorem claim_C3_witness :
    flattenROI wroi3 (get_pixels wF 1 0 0
        (add_tile wF 1 0 0 [] 0 0 0 0 (wF.nchannels : Int) wF.cachedFormat
          (get_pixels wF 1 0 0 [] wroi3 wF.cachedFormat 0 (-1)))
        wroi3 wF.cachedFormat 0 (-1))
      = flattenROI wroi3 (get_pixels wF 1 0 0 [] wroi3 wF.cachedFormat 0 (-1)) :=
  claim_C3 wF 1 0 0 [] wroi3 (goodCache_nil wF) (by decide) (by decide)
    (by decide) (by decide) (by decide) (by decide) (by decide) (by decide)

/-! Claim C8: channel-range normalization of get_tile and add_tile. -/

/-- C8: a get_tile or add_tile request with `chend < chbegin` yields the tile
holding all channels of the file, its key normalized to chbegin = 0,
chend = nchannels (the tile's payload is defined on every channel
c < nchannels); a request for a positive subset [a, b) of the channels stores
only that subset: the key records (a, b), the payload equals the stored tile
on [a, b) and is absent (zero) outside it. -/
theorem claim_C8 (f : ImageFileM) (fid sub mip : Nat) (cache : TileStore)
    (x y z : Int) :
    (∀ chbegin chend : Int, chend < chbegin →
      (get_tile f fid sub mip cache x y z chbegin chend).1.chbegin = 0 ∧
      (get_tile f fid sub mip cache x y z chbegin chend).1.chend = f.nchannels ∧
      (∀ (a3 b3 c3 : Int) (c : Nat), c < f.nchannels →
        (get_tile f fid sub mip cache x y z chbegin chend).2 a3 b3 c3 c
          = tileDataFor f cache
              (get_tile f fid sub mip cache x y z chbegin chend).1 a3 b3 c3 c) ∧
      (addTileKey f fid sub mip x y z chbegin chend).chbegin = 0 ∧
      (addTileKey f fid sub mip x y z chbegin chend).chend = f.nchannels) ∧
    (∀ a b : Nat, a < b → b ≤ f.nchannels →
      (get_tile f fid sub mip cache x y z (a : Int) (b : Int)).1.chbegin = a ∧
      (get_tile f fid sub mip cache x y z (a : Int) (b : Int)).1.chend = b ∧
      (∀ (a3 b3 c3 : Int) (c : Nat), a ≤ c → c < b →
        (get_tile f fid sub mip cache x y z (a : Int) (b : Int)).2 a3 b3 c3 c
          = tileDataFor f cache
              (get_tile f fid sub mip cache x y z (a : Int) (b : Int)).1 a3 b3 c3 c) ∧
      (∀ (a3 b3 c3 : Int) (c : Nat), c < a ∨ b ≤ c →
        (get_tile f fid sub mip cache x y z (a : Int) (b : Int)).2 a3 b3 c3 c = 0) ∧
      (addTileKey f fid sub mip x y z (a : Int) (b : Int)).chbegin = a ∧
      (addTileKey f fid sub mip x y z (a : Int) (b : Int)).chend = b) := by
  constructor
  · intro chbegin chend hlt
    have hn : normChannels chbegin chend f.nchannels = (0, f.nchannels) := by
      simp [normChannels, hlt]
    refine ⟨?_, ?_, ?_, ?_, ?_⟩
    · simp [get_tile, gatherKey, hn]
    · simp [get_tile, gatherKey, hn]
    · intro a3 b3 c3 c hc
      simp [get_tile, hn, hc]
    · simp [addTileKey, gatherKey, hn]
    · simp [addTileKey, gatherKey, hn]
  · intro a b hab hbn
    have hn : normChannels (a : Int) (b : Int) f.nchannels = (a, b) := by
      simp only [normChannels]
      rw [if_neg (by omega)]
      simp
    refine ⟨?_, ?_, ?_, ?_, ?_, ?_⟩
    · simp [get_tile, gatherKey, hn]
    · simp [get_tile, gatherKey, hn]
    · intro a3 b3 c3 c hc1 hc2
      simp [get_tile, hn, hc1, hc2]
    · intro a3 b3 c3 c hc
      simp only [get_tile, hn]
      rw [if_neg (by omega)]
    · simp [addTileKey, gatherKey, hn]
    · simp [addTileKey, gatherKey, hn]

/-- Concrete 4×4 four-channel file used by the channel-subset witness. -/
def wF4 : ImageFileM :=
  ⟨0, 4, 0, 4, 0, 1, 4, 2, 2, 1, PixFmt.f32, fun x y _ c => x + 10 * y + 100 * c⟩

/-- Witness for C8: at `wF4`, a get_tile with chend = -1 < chbegin = 0 yields
the all-channels key (0, 4) with the payload defined at channel 3, and a
subset request [1, 3) yields the key (1, 3) with the payload absent at
channel 3. -/
theorem claim_C8_witness :
    (get_tile wF4 1 0 0 [] 0 0 0 0 (-1)).1.chbegin = 0 ∧
    (get_tile wF4 1 0 0 [] 0 0 0 0 (-1)).1.chend = wF4.nchannels ∧
    (get_tile wF4 1 0 0 [] 0 0 0 0 (-1)).2 0 0 0 3
      = tileDataFor wF4 [] (get_tile wF4 1 0 0 [] 0 0 0 0 (-1)).1 0 0 0 3 ∧
    (addTileKey wF4 1 0 0 0 0 0 0 (-1)).chend = wF4.nchannels ∧
    (get_tile wF4 1 0 0 [] 0 0 0 1 3).1.chbegin = 1 ∧
    (get_tile wF4 1 0 0 [] 0 0 0 1 3).1.chend = 3 ∧
    (get_tile wF4 1 0 0 [] 0 0 0 1 3).2 0 0 0 2
      = tileDataFor wF4 [] (get_tile wF4 1 0 0 [] 0 0 0 1 3).1 0 0 0 2 ∧
    (get_tile wF4 1 0 0 [] 0 0 0 1 3).2 0 0 0 3 = 0 :=
  ⟨((claim_C8 wF4 1 0 0 [] 0 0 0).1 0 (-1) (by decide)).1,
   ((claim_C8 wF4 1 0 0 [] 0 0 0).1 0 (-1) (by decide)).2.1,
   ((claim_C8 wF4 1 0 0 [] 0 0 0).1 0 (-1) (by decide)).2.2.1 0 0 0 3 (by decide),
   ((claim_C8 wF4 1 0 0 [] 0 0 0).1 0 (-1) (by decide)).2.2.2.2,
   ((claim_C8 wF4 1 0 0 [] 0 0 0).2 1 3 (by decide) (by decide)).1,
   ((claim_C8 wF4 1 0 0 [] 0 0 0).2 1 3 (by decide) (by decide)).2.1,
   ((claim_C8 wF4 1 0 0 [] 0 0 0).2 1 3 (by decide) (by decide)).2.2.1 0 0 0 2
     (by decide) (by decide),
   ((claim_C8 wF4 1 0 0 [] 0 0 0).2 1 3 (by decide) (by decide)).2.2.2.1 0 0 0 3
     (Or.inr (by decide))⟩

/-! Claim C6: the "exists" query is the sole non-error query. -/

/-- Modelled from the spec (§7 error surface) and the header get_image_info
doc (lines 560–564, 710–719): what the cache can determine about a file when
a query names it: missing, present but not readable as an image, or readable
with its metadata. -/
inductive FileStatus where
  | absent
  | unreadable
  | ok (subimages : Nat) (nchannels : Nat)
deriving DecidableEq, Repr

/-- Does the file exist and is it an image format that can be read? -/
def readableStatus : FileStatus → Bool
  | .ok _ _ => true
  | _ => false

/-- Modelled from the spec (§6/§7) and the header get_image_info doc: the
result of a get_image_info query: `some v` means the call returned true with
`v` stored through the data pointer; `none` means the call returned false.
The "exists" query succeeds even for a missing or unreadable file, storing 0;
for every other dataname such a file makes the query fail. -/
def get_image_info (st : FileStatus) (dataname : String) : Option Int :=
  if dataname = "exists" then some (if readableStatus st then 1 else 0)
  else
    match st with
    | .absent => none
    | .unreadable => none
    | .ok subimages nchannels =>
      if dataname = "subimages" then some subimages
      else if dataname = "channels" then some nchannels
      else none

/-- C6: the "exists" query always returns true, storing 1 exactly when the
file exists and is readable as an image and 0 otherwise; for every other
dataname, a file that does not exist or cannot be read makes get_image_info
return false. -/
theorem claim_C6 (st : FileStatus) (dataname : String) :
    get_image_info st "exists"
        = some (if readableStatus st then 1 else 0) ∧
    (readableStatus st = false → dataname ≠ "exists" →
      get_image_info st dataname = none) := by
  constructor
  · simp [get_image_info]
  · intro hbr hne
    unfold get_image_info
    rw [if_neg hne]
    cases st with
    | absent => rfl
    | unreadable => rfl
    | ok a b => simp [readableStatus] at hbr

/-- Witness for C6: a missing file still answers "exists" (with 0) and fails
the "subimages" query. -/
theorem claim_C6_witness :
    get_image_info FileStatus.absent "exists"
        = some (if readableStatus FileStatus.absent then 1 else 0) ∧
    get_image_info FileStatus.absent "subimages" = none :=
  ⟨(claim_C6 FileStatus.absent "subimages").1,
   (claim_C6 FileStatus.absent "subimages").2 (by decide) (by decide)⟩

/-! Claim C10: the deprecated get_imagespec / imagespec overloads. -/

/-- The spec-query surface of an ImageCache.  The three-argument
`get_imagespec` and two-argument `imagespec` are the primitives of the new
API (their implementations live in the engine, so they are abstract here);
`Handle` stands for ImageHandle*, `Perthread` for the per-thread record, and
`Spec` for ImageSpec.  `get_imagespec` consumes the caller's destination spec
and returns the boolean result together with the destination's final state. -/
structure SpecAPI (Handle Perthread Spec : Type) where
  get_imagespec : String → Spec → Nat → Bool × Spec
  get_imagespecH : Handle → Option Perthread → Spec → Nat → Bool × Spec
  imagespec : String → Nat → Option Spec
  imagespecH : Handle → Option Perthread → Nat → Option Spec

/-- Translated from the source (imagecache.h lines 758–762): the deprecated
five-argument `get_imagespec` overload; its inline body forwards to the new
three-argument API, so miplevel and native are ignored. -/
def SpecAPI.get_imagespec_v2 {H P S : Type} (api : SpecAPI H P S)
    (filename : String) (spec : S) (subimage miplevel : Nat) (native : Bool) :
    Bool × S :=
  api.get_imagespec filename spec subimage

/-- Translated from the source (imagecache.h lines 763–769): the deprecated
handle-based `get_imagespec` overload; its inline body forwards to the new
API. -/
def SpecAPI.get_imagespecH_v2 {H P S : Type} (api : SpecAPI H P S)
    (file : H) (thread_info : Option P) (spec : S)
    (subimage miplevel : Nat) (native : Bool) : Bool × S :=
  api.get_imagespecH file thread_info spec subimage

/-- Translated from the source (imagecache.h lines 808–812): the deprecated
four-argument `imagespec` overload; its inline body forwards to the new
two-argument API. -/
def SpecAPI.imagespec_v2 {H P S : Type} (api : SpecAPI H P S)
    (filename : String) (subimage miplevel : Nat) (native : Bool) : Option S :=
  api.imagespec filename subimage

/-- Translated from the source (imagecache.h lines 813–818): the deprecated
handle-based `imagespec` overload; its inline body forwards to the new API. -/
def SpecAPI.imagespecH_v2 {H P S : Type} (api : SpecAPI H P S)
    (file : H) (thread_info : Option P) (subimage miplevel : Nat)
    (native : Bool) : Option S :=
  api.imagespecH file thread_info subimage

/-- C10: each deprecated `get_imagespec` / `imagespec` overload returns
exactly the same result (boolean result and destination-spec state, or
returned pointer) as the corresponding new API call on the same filename or
handle and subimage; the miplevel and native arguments have no effect. -/
theorem claim_C10 {H P S : Type} (api : SpecAPI H P S)
    (filename : String) (spec : S) (file : H) (thread_info : Option P)
    (subimage miplevel : Nat) (native : Bool) :
    api.get_imagespec_v2 filename spec subimage miplevel native
        = api.get_imagespec filename spec subimage ∧
    api.get_imagespecH_v2 file thread_info spec subimage miplevel native
        = api.get_imagespecH file thread_info spec subimage ∧
    api.imagespec_v2 filename subimage miplevel native
        = api.imagespec filename subimage ∧
    api.imagespecH_v2 file thread_info subimage miplevel native
        = api.imagespecH file thread_info subimage :=
  ⟨rfl, rfl, rfl, rfl⟩

/-! Claim C5: content-fingerprint deduplication. -/

/-- Modelled from the spec (§3 "FileRecord", §4.A): a file record as the
dedup index sees it: resolved name, FileID, the content fingerprint the
decoder reported (if any), and the FileID this record is a soft alias of
when dedup matched it against an earlier file. -/
structure DFile where
  name : String
  fid : Nat
  fingerprint : Option Nat
  duplicateOf : Option Nat
deriving DecidableEq, Repr

/-- Modelled from the spec (§4.A, §4.B, §8 property 5): the state the dedup
claims need: the file records, the next fresh FileID, the fingerprint →
FileID index, the deduplicate attribute, the resident tiles keyed by
(FileID, tile origin) with their byte total, and the running count of pixel
bytes read from disk. -/
structure DedupState where
  files : List DFile
  nextFid : Nat
  fpIndex : List (Nat × Nat)
  deduplicate : Bool
  residentTiles : List (Nat × Int × Int × Int)
  residentBytes : Nat
  bytesRead : Nat
deriving DecidableEq, Repr

/-- Look up a file record by name. -/
def lookupDFile (s : DedupState) (n : String) : Option DFile :=
  s.files.find? (fun f => f.name = n)

/-- Look up a fingerprint in the fingerprint index. -/
def lookupFp (idx : List (Nat × Nat)) (fp : Nat) : Option Nat :=
  (idx.find? (fun p => p.1 = fp)).map Prod.snd

/-- Modelled from the spec (§4.A): first open of a file whose decoder reports
fingerprint `fp`: a fresh FileRecord is created; when `deduplicate` is on and
the fingerprint is already present, the new record is marked
duplicate_of(existing); otherwise the fingerprint is registered.  Files
without a fingerprint never dedup.  Re-opening a known name changes
nothing. -/
def openDFile (n : String) (fp : Option Nat) (s : DedupState) : DedupState :=
  match lookupDFile s n with
  | some _ => s
  | none =>
    match fp with
    | none =>
      { s with files := ⟨n, s.nextFid, none, none⟩ :: s.files,
               nextFid := s.nextFid + 1 }
    | some f =>
      if s.deduplicate then
        match lookupFp s.fpIndex f with
        | some existing =>
          { s with files := ⟨n, s.nextFid, some f, some existing⟩ :: s.files,
                   nextFid := s.nextFid + 1 }
        | none =>
          { s with files := ⟨n, s.nextFid, some f, none⟩ :: s.files,
                   fpIndex := (f, s.nextFid) :: s.fpIndex,
                   nextFid := s.nextFid + 1 }
      else
        { s with files := ⟨n, s.nextFid, some f, none⟩ :: s.files,
                 nextFid := s.nextFid + 1 }

/-- Modelled from the spec (§4.A): the FileID a tile read against name `n`
resolves to: the duplicate's reads are redirected to the record it
aliases. -/
def resolveFid (s : DedupState) (n : String) : Option Nat :=
  (lookupDFile s n).map (fun f => f.duplicateOf.getD f.fid)

/-- Modelled from the spec (§4.B/§4.F and §8 scenario S3): read one tile of
`tileBytes` bytes through filename `n`: the key is the resolved FileID plus
the tile origin; on a miss the bytes are read from disk and the tile becomes
resident (counted once); on a hit nothing is read. -/
def applyRead (fid : Nat) (pos : Int × Int × Int) (tileBytes : Nat)
    (s : DedupState) : DedupState :=
  if (fid, pos) ∈ s.residentTiles then s
  else
    { s with residentTiles := (fid, pos) :: s.residentTiles,
             residentBytes := s.residentBytes + tileBytes,
             bytesRead := s.bytesRead + tileBytes }

def readTileD (n : String) (pos : Int × Int × Int) (tileBytes : Nat)
    (s : DedupState) : DedupState :=
  ((resolveFid s n).map (fun fid => applyRead fid pos tileBytes s)).getD s

/-- C5: for two files with identical content fingerprints opened while
deduplicate is on, tile reads against either filename resolve to the same
FileID (the later file is redirected to the first), the file bytes are read
only once, and the resident tile bytes for the pair are counted once. -/
theorem claim_C5 (s0 : DedupState) (n1 n2 : String) (fp : Nat)
    (pos : Int × Int × Int) (tileBytes : Nat)
    (hdedup : s0.deduplicate = true)
    (hne : n1 ≠ n2)
    (h1 : lookupDFile s0 n1 = none) (h2 : lookupDFile s0 n2 = none)
    (hfp : lookupFp s0.fpIndex fp = none)
    (hres : (s0.nextFid, pos) ∉ s0.residentTiles) :
    resolveFid (openDFile n2 (some fp) (openDFile n1 (some fp) s0)) n1
        = some s0.nextFid ∧
    resolveFid (openDFile n2 (some fp) (openDFile n1 (some fp) s0)) n2
        = some s0.nextFid ∧
    (readTileD n2 pos tileBytes (readTileD n1 pos tileBytes
        (openDFile n2 (some fp) (openDFile n1 (some fp) s0)))).bytesRead
      = s0.bytesRead + tileBytes ∧
    (readTileD n2 pos tileBytes (readTileD n1 pos tileBytes
        (openDFile n2 (some fp) (openDFile n1 (some fp) s0)))).residentBytes
      = s0.residentBytes + tileBytes := by
  have e1 : openDFile n1 (some fp) s0
      = { s0 with files := ⟨n1, s0.nextFid, some fp, none⟩ :: s0.files,
                  fpIndex := (fp, s0.nextFid) :: s0.fpIndex,
                  nextFid := s0.nextFid + 1 } := by
    unfold openDFile
    rw [h1]
    simp [hdedup, hfp]
  have hl2 : lookupDFile (openDFile n1 (some fp) s0) n2 = none := by
    rw [e1]
    unfold lookupDFile at h2 ⊢
    rw [List.find?_cons_of_neg _ (by simp [hne])]
    exact h2
  have hfp2 : lookupFp (openDFile n1 (some fp) s0).fpIndex fp
      = some s0.nextFid := by
    rw [e1]
    unfold lookupFp
    rw [List.find?_cons_of_pos _ (by simp)]
    rfl
  have e2 : openDFile n2 (some fp) (openDFile n1 (some fp) s0)
      = { s0 with
            files := ⟨n2, s0.nextFid + 1, some fp, some s0.nextFid⟩ ::
              ⟨n1, s0.nextFid, some fp, none⟩ :: s0.files,
            fpIndex := (fp, s0.nextFid) :: s0.fpIndex,
            nextFid := s0.nextFid + 2 } := by
    conv_lhs => rw [openDFile]
    rw [hl2, hfp2]
    simp only [e1, hdedup]
    rfl
  have hr1 : resolveFid (openDFile n2 (some fp) (openDFile n1 (some fp) s0)) n1
      = some s0.nextFid := by
    rw [e2]
    unfold resolveFid lookupDFile
    rw [List.find?_cons_of_neg _ (by simp [Ne.symm hne]),
      List.find?_cons_of_pos _ (by simp)]
    rfl
  have hr2 : resolveFid (openDFile n2 (some fp) (openDFile n1 (some fp) s0)) n2
      = some s0.nextFid := by
    rw [e2]
    unfold resolveFid lookupDFile
    rw [List.find?_cons_of_pos _ (by simp)]
    rfl
  have hnotres : (s0.nextFid, pos)
      ∉ (openDFile n2 (some fp) (openDFile n1 (some fp) s0)).residentTiles := by
    rw [e2]
    exact hres
  have er1 : readTileD n1 pos tileBytes
      (openDFile n2 (some fp) (openDFile n1 (some fp) s0))
      = applyRead s0.nextFid pos tileBytes
          (openDFile n2 (some fp) (openDFile n1 (some fp) s0)) := by
    unfold readTileD
    rw [hr1]
    rfl
  have hfields :
      (applyRead s0.nextFid pos tileBytes
          (openDFile n2 (some fp) (openDFile n1 (some fp) s0))).files
        = (openDFile n2 (some fp) (openDFile n1 (some fp) s0)).files ∧
      (applyRead s0.nextFid pos tileBytes
          (openDFile n2 (some fp) (openDFile n1 (some fp) s0))).residentTiles
        = (s0.nextFid, pos)
            :: (openDFile n2 (some fp) (openDFile n1 (some fp) s0)).residentTiles ∧
      (applyRead s0.nextFid pos tileBytes
          (openDFile n2 (some fp) (openDFile n1 (some fp) s0))).bytesRead
        = (openDFile n2 (some fp) (openDFile n1 (some fp) s0)).bytesRead
            + tileBytes ∧
      (applyRead s0.nextFid pos tileBytes
          (openDFile n2 (some fp) (openDFile n1 (some fp) s0))).residentBytes
        = (openDFile n2 (some fp) (openDFile n1 (some fp) s0)).residentBytes
            + tileBytes := by
    unfold applyRead
    rw [if_neg hnotres]
    exact ⟨rfl, rfl, rfl, rfl⟩
  have hv2 : resolveFid (readTileD n1 pos tileBytes
      (openDFile n2 (some fp) (openDFile n1 (some fp) s0))) n2
      = some s0.nextFid := by
    rw [er1]
    unfold resolveFid lookupDFile
    rw [hfields.1]
    unfold resolveFid lookupDFile at hr2
    exact hr2
  have e3 : readTileD n2 pos tileBytes (readTileD n1 pos tileBytes
      (openDFile n2 (some fp) (openDFile n1 (some fp) s0)))
      = readTileD n1 pos tileBytes
          (openDFile n2 (some fp) (openDFile n1 (some fp) s0)) := by
    conv_lhs => rw [readTileD]
    rw [hv2]
    simp only [Option.map_some', Option.getD_some]
    conv_lhs => rw [applyRead]
    rw [if_pos]
    rw [er1, hfields.2.1]
    exact List.mem_cons_self _ _
  refine ⟨hr1, hr2, ?_, ?_⟩
  · rw [e3, er1, hfields.2.2.1, e2]
  · rw [e3, er1, hfields.2.2.2, e2]

/-- Witness for C5 at a concrete empty cache: two names, one fingerprint. -/
theorem claim_C5_witness :
    resolveFid (openDFile "y.tx" (some 77)
        (openDFile "x.tx" (some 77) ⟨[], 0, [], true, [], 0, 0⟩)) "x.tx"
      = some 0 ∧
    resolveFid (openDFile "y.tx" (some 77)
        (openDFile "x.tx" (some 77) ⟨[], 0, [], true, [], 0, 0⟩)) "y.tx"
      = some 0 ∧
    (readTileD "y.tx" (0, 0, 0) 4096 (readTileD "x.tx" (0, 0, 0) 4096
        (openDFile "y.tx" (some 77)
          (openDFile "x.tx" (some 77) ⟨[], 0, [], true, [], 0, 0⟩)))).bytesRead
      = 0 + 4096 ∧
    (readTileD "y.tx" (0, 0, 0) 4096 (readTileD "x.tx" (0, 0, 0) 4096
        (openDFile "y.tx" (some 77)
          (openDFile "x.tx" (some 77) ⟨[], 0, [], true, [], 0, 0⟩)))).residentBytes
      = 0 + 4096 :=
  claim_C5 ⟨[], 0, [], true, [], 0, 0⟩ "x.tx" "y.tx" 77 (0, 0, 0) 4096
    (by decide) (by decide) (by decide) (by decide) (by decide) (by decide)

end OIIOCache
